import Mathlib

/-!
# Verification of the ganache detached-instance lifecycle subsystem

Shallow embedding of `src/packages/cli/src/detach.ts` (the detached-instance
registry, discovery/reconciliation, termination, spawn handshake and argument
flattener) together with proofs of the specified properties.

Modelling conventions:
* The registry directory is a list of files, each file a pair of its decimal
  filename (the pid it is keyed by) and its parsed content: either a valid
  `DetachedInstance` record (`JSON.parse` succeeds and yields a record) or a
  corrupt blob (`JSON.parse` throws).
* The OS process table (`psList()`) is a list of `ProcInfo` (pid and command
  line); it is taken as one snapshot per pass, exactly as the code awaits
  `psList()` once.
* Effects are made explicit: each operation returns the registry as it stands
  after the call, the list of pids that were sent SIGTERM, and the corruption
  warnings that were logged.
* `process.kill` succeeds exactly when a process with the target pid exists at
  the moment of the call (the code's own comment: "process.kill throws if the
  process was not found"); `stopDetachedInstance` therefore receives two
  process-table snapshots, one for the discovery pass and one for the moment
  of signalling, since the world may change between the two.
-/

namespace GanacheDetach

/-- The Instance Record persisted for one detached instance
(`DetachedInstance` in `detach.ts`).  `startTime` is `Date.now()`,
modelled as an integer count of milliseconds. -/
structure DetachedInstance where
  instanceName : String
  pid : Nat
  startTime : Int
  host : String
  port : Nat
  flavor : String
  cmd : String
  version : String
deriving Repr, DecidableEq

/-- What a registry file holds once read: bytes that parse to a record, or
bytes on which `JSON.parse` throws. -/
inductive FileContent where
  | valid (inst : DetachedInstance)
  | corrupt
deriving Repr, DecidableEq

/-- One file of the registry directory: decimal filename (the pid key) and
its content. -/
abbrev RegFile := Nat × FileContent

/-- One row of the OS process table as returned by `psList()`. -/
structure ProcInfo where
  pid : Nat
  cmd : String
deriving Repr, DecidableEq

/-- `removeDetachedInstanceFile(pid)`: if the file named `pid` exists, delete
it and report `true`; otherwise report `false`.  Returns the report and the
registry after the call. -/
def removeDetachedInstanceFile (pid : Nat) (files : List RegFile) :
    Bool × List RegFile :=
  if files.any (fun f => f.fst == pid) then
    (true, files.filter (fun f => f.fst != pid))
  else
    (false, files)

/-- Sequential application of `removeDetachedInstanceFile` for every name in
`names`, as performed file-by-file inside the discovery loop. -/
def removeAll (names : List Nat) (files : List RegFile) : List RegFile :=
  names.foldl (fun acc n => (removeDetachedInstanceFile n acc).2) files

/-- Everything one iteration of the `getDetachedInstances` loop produces:
records kept so far, filenames removed, pids signalled (SIGTERM), and pids a
corruption warning was logged for. -/
structure ReconcileOut where
  instances : List DetachedInstance
  removed : List Nat
  signaled : List Nat
  warned : List Nat
deriving Repr, DecidableEq

/-- The body of the `getDetachedInstances` loop for one file named `name`
holding `content`, given the outcome `r` of the remaining iterations:
* no live process with pid `name` → mark the file for removal;
* live process, record parses, command lines differ → mark for removal
  (pid reused by an unrelated process); equal → keep the record;
* live process, record corrupt → log a warning, SIGTERM the pid, mark for
  removal. -/
def reconcileStep (procs : List ProcInfo) (name : Nat) (content : FileContent)
    (r : ReconcileOut) : ReconcileOut :=
  match procs.find? (fun pr => pr.pid == name), content with
  | some p, FileContent.valid inst =>
    if p.cmd != inst.cmd then
      ⟨r.instances, name :: r.removed, r.signaled, r.warned⟩
    else
      ⟨inst :: r.instances, r.removed, r.signaled, r.warned⟩
  | some _, FileContent.corrupt =>
    ⟨r.instances, name :: r.removed, name :: r.signaled, name :: r.warned⟩
  | none, _ =>
    ⟨r.instances, name :: r.removed, r.signaled, r.warned⟩

/-- The `for` loop of `getDetachedInstances` over the directory listing,
against one fixed process-table snapshot. -/
def reconcileLoop (procs : List ProcInfo) : List RegFile → ReconcileOut
  | [] => ⟨[], [], [], []⟩
  | (name, content) :: rest =>
    reconcileStep procs name content (reconcileLoop procs rest)

/-- Result of a full `getDetachedInstances()` pass. -/
structure ListResult where
  instances : List DetachedInstance
  registry : List RegFile
  signaled : List Nat
  warned : List Nat
deriving Repr, DecidableEq

/-- `getDetachedInstances()`: read the directory once, reconcile each file
against one `psList()` snapshot, delete every file marked stale, and return
the survivors sorted by `instances.sort((a, b) => b.startTime - a.startTime)`,
i.e. descending `startTime`. -/
def getDetachedInstances (files : List RegFile) (procs : List ProcInfo) :
    ListResult :=
  let r := reconcileLoop procs files
  { instances := List.insertionSort (fun a b => b.startTime ≤ a.startTime) r.instances
    registry := removeAll r.removed files
    signaled := r.signaled
    warned := r.warned }

/-- `findDetachedInstanceByName(name)`: first record of the reconciled,
sorted listing whose `instanceName` matches. -/
def findDetachedInstanceByName (name : String) (files : List RegFile)
    (procs : List ProcInfo) : Option DetachedInstance :=
  (getDetachedInstances files procs).instances.find?
    (fun i => i.instanceName == name)

/-- Result of `stopDetachedInstance`: the returned boolean, the registry
after the call, and every pid that was sent SIGTERM during the call. -/
structure StopResult where
  found : Bool
  registry : List RegFile
  signaled : List Nat
deriving Repr, DecidableEq

/-- `stopDetachedInstance(instanceName)`:
look the name up via the reconciler (which already evicts stale files); if a
record is found, `process.kill(pid, "SIGTERM")` inside `try/catch/finally`:
the `finally` always removes the instance file, the `catch` returns `false`
when the kill throws (no process with that pid at signalling time), and
`true` is returned otherwise. -/
def stopDetachedInstance (name : String) (files : List RegFile)
    (procsAtList procsAtKill : List ProcInfo) : StopResult :=
  match findDetachedInstanceByName name files procsAtList with
  | some inst =>
    let lr := getDetachedInstances files procsAtList
    let delivered := procsAtKill.any (fun pr => pr.pid == inst.pid)
    let reg := (removeDetachedInstanceFile inst.pid lr.registry).2
    if delivered then
      { found := true, registry := reg, signaled := lr.signaled ++ [inst.pid] }
    else
      { found := false, registry := reg, signaled := lr.signaled }
  | none =>
    { found := false
      registry := (getDetachedInstances files procsAtList).registry
      signaled := (getDetachedInstances files procsAtList).signaled }

/-! ## Argument flattener (`createFlatChildArgs`) -/

/-- A value of the parsed, namespaced configuration object: a JS scalar or a
nested object (a list of key/value fields, keys unique as in a JS object). -/
inductive ConfigValue where
  | str (s : String)
  | num (n : Int)
  | bool (b : Bool)
  | obj (fields : List (String × ConfigValue))

/-- JS template-literal coercion of a value to a string, as in
`` `--${prefix}${key}=${value}` `` and `unshift(value)`. -/
def renderScalar : ConfigValue → String
  | ConfigValue.str s => s
  | ConfigValue.num n => toString n
  | ConfigValue.bool b => if b then "true" else "false"
  | ConfigValue.obj _ => "[object Object]"

/-- `true` exactly when `typeof value === "object"` is false. -/
def ConfigValue.isScalar : ConfigValue → Bool
  | ConfigValue.obj _ => false
  | _ => true

/-- `const prefix = namespace === null ? "" : namespace + "."`. -/
def nsPrefix : Option String → String
  | none => ""
  | some ns => ns ++ "."

/-- The inner `flatten(namespace, args)` of `createFlatChildArgs`, with the
mutable `flattenedArgs` array threaded through as `acc`:
* `key === "flavor"` → `unshift(value)` (prepend to the array built so far);
* `key === "action"` → dropped;
* nested object → recurse with namespace `prefix + key`;
* scalar → `push("--" + prefix + key + "=" + value)`. -/
def flattenList (ns : Option String) (acc : List String) :
    List (String × ConfigValue) → List String
  | [] => acc
  | (k, v) :: rest =>
    if k = "flavor" then
      flattenList ns (renderScalar v :: acc) rest
    else if k = "action" then
      flattenList ns acc rest
    else
      match v with
      | ConfigValue.obj fields =>
        flattenList ns (flattenList (some (nsPrefix ns ++ k)) acc fields) rest
      | _ =>
        flattenList ns
          (acc ++ ["--" ++ nsPrefix ns ++ k ++ "=" ++ renderScalar v]) rest

/-- `createFlatChildArgs(args)`: `flatten(null, args)` starting from the
empty token array. -/
def createFlatChildArgs (args : List (String × ConfigValue)) : List String :=
  flattenList none [] args

/-! ## Spawner (`startDetachedInstance`) -/

/-- The three possible resolutions of the handshake promise awaited by
`startDetachedInstance`: the child posts the `"ready"` message, the child
emits a launch-time `"error"` event, or the child exits before readiness. -/
inductive SpawnOutcome where
  | ready
  | errorEvent (msg : String)
  | exited (code : Int)
deriving Repr, DecidableEq

/-- `writeFileSync(dataPath + "/" + instance.pid, JSON.stringify(instance))`:
create (or overwrite) the file named by the record's pid. -/
def writeInstanceFile (inst : DetachedInstance) (files : List RegFile) :
    List RegFile :=
  (inst.pid, FileContent.valid inst) :: files.filter (fun f => f.fst != inst.pid)

/-- Result of `startDetachedInstance`: the resolved record (`none` when the
handshake promise rejected, i.e. the spawn failed), the registry after the
call, and the `process.exitCode` set on the parent (`none` when untouched). -/
structure StartResult where
  result : Option DetachedInstance
  registry : List RegFile
  parentExitCode : Option Int
deriving Repr, DecidableEq

/-- `startDetachedInstance(module, args, version)` from the point where the
child has been forked: `childPid`/`childCmd` are the forked child's pid and
the command line `psList()` reports for it, `instanceName` is the name chosen
by the §4.2 generation loop, and `outcome` is how the awaited handshake
promise resolves.  Only on `"ready"` is the record assembled
(`startTime = Date.now()`, here `now`) and written to the registry; on a
launch error or premature exit the promise rejects, the parent's exit code is
set (a premature zero exit is surfaced as `1`), and no file is written. -/
def startDetachedInstance (childPid : Nat) (childCmd : String)
    (instanceName : String) (host : String) (port : Nat) (flavor : String)
    (version : String) (now : Int) (files : List RegFile)
    (outcome : SpawnOutcome) : StartResult :=
  match outcome with
  | SpawnOutcome.ready =>
    let inst : DetachedInstance :=
      { startTime := now
        pid := childPid
        instanceName := instanceName
        host := host
        port := port
        flavor := flavor
        cmd := childCmd
        version := version }
    { result := some inst
      registry := writeInstanceFile inst files
      parentExitCode := none }
  | SpawnOutcome.errorEvent _ =>
    { result := none, registry := files, parentExitCode := some 1 }
  | SpawnOutcome.exited code =>
    { result := none
      registry := files
      parentExitCode := some (if code = 0 then 1 else code) }

/-! ## Name generation loop -/

/-- Modelled from the spec: `createInstanceName` (module `./process-name`,
not included in the sources) draws human-memorable candidate names from a
large namespace; successive calls are modelled as an arbitrary stream
`gen : Nat → String`.  The `do { } while (instanceNames.indexOf(...) !== -1)`
loop of `startDetachedInstance` returns the first candidate that is not
already in use; it terminates exactly when some candidate misses `used`. -/
def generateUniqueName (gen : Nat → String) (used : List String)
    (h : ∃ i, gen i ∉ used) : String :=
  gen (Nat.find h)

/-! ## Reconciliation lemmas -/

theorem removeFile_snd (pid : Nat) (files : List RegFile) :
    (removeDetachedInstanceFile pid files).2 = files.filter (fun f => f.fst != pid) := by
  unfold removeDetachedInstanceFile
  split
  · rfl
  · next h =>
    symm
    rw [List.filter_eq_self]
    intro f hf
    simp only [List.any_eq_true, beq_iff_eq, not_exists, not_and] at h
    simp only [bne_iff_ne, ne_eq, decide_eq_true_eq]
    exact h f hf

theorem mem_removeAll (names : List Nat) (files : List RegFile) (f : RegFile) :
    f ∈ removeAll names files ↔ f ∈ files ∧ f.fst ∉ names := by
  induction names generalizing files with
  | nil => simp [removeAll]
  | cons n ns ih =>
    simp only [removeAll, List.foldl_cons] at *
    rw [ih, removeFile_snd]
    simp only [List.mem_filter, bne_iff_ne, ne_eq, decide_eq_true_eq, List.mem_cons, not_or]
    tauto

theorem mem_instances_reconcileLoop (procs : List ProcInfo) (files : List RegFile)
    (inst : DetachedInstance) :
    inst ∈ (reconcileLoop procs files).instances →
      ∃ q, (q, FileContent.valid inst) ∈ files ∧
        ∃ p, procs.find? (fun pr => pr.pid == q) = some p ∧ p.cmd = inst.cmd := by
  induction files with
  | nil => simp [reconcileLoop]
  | cons f rest ih =>
    obtain ⟨name, content⟩ := f
    simp only [reconcileLoop]
    unfold reconcileStep
    split
    · next p inst' heq =>
      split
      · intro h
        obtain ⟨q, hq, hrest⟩ := ih h
        exact ⟨q, List.mem_cons_of_mem _ hq, hrest⟩
      · next hcmd =>
        intro h
        simp only [List.mem_cons] at h
        rcases h with h | h
        · subst h
          refine ⟨name, List.mem_cons_self _ _, p, heq, ?_⟩
          simpa [bne_iff_ne] using hcmd
        · obtain ⟨q, hq, hrest⟩ := ih h
          exact ⟨q, List.mem_cons_of_mem _ hq, hrest⟩
    · next p heq =>
      intro h
      obtain ⟨q, hq, hrest⟩ := ih h
      exact ⟨q, List.mem_cons_of_mem _ hq, hrest⟩
    · next heq =>
      intro h
      obtain ⟨q, hq, hrest⟩ := ih h
      exact ⟨q, List.mem_cons_of_mem _ hq, hrest⟩

theorem mem_signaled_reconcileLoop (procs : List ProcInfo) (files : List RegFile)
    (q : Nat) :
    q ∈ (reconcileLoop procs files).signaled → (q, FileContent.corrupt) ∈ files := by
  induction files with
  | nil => simp [reconcileLoop]
  | cons f rest ih =>
    obtain ⟨name, content⟩ := f
    simp only [reconcileLoop]
    unfold reconcileStep
    split
    · split
      · exact fun h => List.mem_cons_of_mem _ (ih h)
      · exact fun h => List.mem_cons_of_mem _ (ih h)
    · next p heq =>
      intro h
      simp only [List.mem_cons] at h
      rcases h with h | h
      · subst h
        exact List.mem_cons_self _ _
      · exact List.mem_cons_of_mem _ (ih h)
    · exact fun h => List.mem_cons_of_mem _ (ih h)

theorem mem_signaled_step (procs : List ProcInfo) (name : Nat) (content : FileContent)
    (r : ReconcileOut) (x : Nat) (h : x ∈ r.signaled) :
    x ∈ (reconcileStep procs name content r).signaled := by
  unfold reconcileStep
  split <;> try split
  all_goals simp_all [List.mem_cons]

theorem mem_warned_step (procs : List ProcInfo) (name : Nat) (content : FileContent)
    (r : ReconcileOut) (x : Nat) (h : x ∈ r.warned) :
    x ∈ (reconcileStep procs name content r).warned := by
  unfold reconcileStep
  split <;> try split
  all_goals simp_all [List.mem_cons]

theorem mem_removed_step (procs : List ProcInfo) (name : Nat) (content : FileContent)
    (r : ReconcileOut) (x : Nat) (h : x ∈ r.removed) :
    x ∈ (reconcileStep procs name content r).removed := by
  unfold reconcileStep
  split <;> try split
  all_goals simp_all [List.mem_cons]

theorem corrupt_live_reconcileLoop (procs : List ProcInfo) (files : List RegFile)
    (q : Nat) (p : ProcInfo)
    (hf : (q, FileContent.corrupt) ∈ files)
    (hp : procs.find? (fun pr => pr.pid == q) = some p) :
    q ∈ (reconcileLoop procs files).signaled ∧ q ∈ (reconcileLoop procs files).warned ∧
      q ∈ (reconcileLoop procs files).removed := by
  induction files with
  | nil => simp at hf
  | cons f rest ih =>
    obtain ⟨name, content⟩ := f
    simp only [List.mem_cons] at hf
    simp only [reconcileLoop]
    rcases hf with hf | hf
    · rw [Prod.mk.injEq] at hf
      obtain ⟨h1, h2⟩ := hf
      subst h1
      subst h2
      unfold reconcileStep
      rw [hp]
      simp
    · obtain ⟨h1, h2, h3⟩ := ih hf
      exact ⟨mem_signaled_step _ _ _ _ _ h1, mem_warned_step _ _ _ _ _ h2,
        mem_removed_step _ _ _ _ _ h3⟩

theorem mismatch_removed_reconcileLoop (procs : List ProcInfo) (files : List RegFile)
    (q : Nat) (inst : DetachedInstance) (p : ProcInfo)
    (hf : (q, FileContent.valid inst) ∈ files)
    (hp : procs.find? (fun pr => pr.pid == q) = some p)
    (hcmd : p.cmd ≠ inst.cmd) :
    q ∈ (reconcileLoop procs files).removed := by
  induction files with
  | nil => simp at hf
  | cons f rest ih =>
    obtain ⟨name, content⟩ := f
    simp only [List.mem_cons] at hf
    simp only [reconcileLoop]
    rcases hf with hf | hf
    · rw [Prod.mk.injEq] at hf
      obtain ⟨h1, h2⟩ := hf
      subst h1
      subst h2
      unfold reconcileStep
      rw [hp]
      simp [bne_iff_ne, hcmd]
    · exact mem_removed_step _ _ _ _ _ (ih hf)

instance : IsTotal DetachedInstance (fun a b => b.startTime ≤ a.startTime) :=
  ⟨fun a b => Int.le_total b.startTime a.startTime⟩

instance : IsTrans DetachedInstance (fun a b => b.startTime ≤ a.startTime) :=
  ⟨fun _ _ _ hab hbc => le_trans hbc hab⟩

/-- A valid record's `pid` field agrees with the decimal filename it is
stored under (spec §3: "filename and `pid` field must always agree"). -/
def pidMatchesFilename : RegFile → Bool
  | (name, FileContent.valid inst) => inst.pid == name
  | (_, FileContent.corrupt) => true

/-- The invariants the registry directory maintains: filenames are unique
(it is a directory) and every parseable record is stored under its own pid. -/
def WellFormedRegistry (files : List RegFile) : Prop :=
  (files.map Prod.fst).Nodup ∧ ∀ f ∈ files, pidMatchesFilename f = true

theorem instances_getDetached (files : List RegFile) (procs : List ProcInfo)
    (inst : DetachedInstance) :
    inst ∈ (getDetachedInstances files procs).instances ↔
      inst ∈ (reconcileLoop procs files).instances := by
  simp only [getDetachedInstances]
  exact (List.perm_insertionSort _ _).mem_iff

theorem registry_getDetached (files : List RegFile) (procs : List ProcInfo)
    (f : RegFile) :
    f ∈ (getDetachedInstances files procs).registry ↔
      f ∈ files ∧ f.fst ∉ (reconcileLoop procs files).removed := by
  simp only [getDetachedInstances]
  exact mem_removeAll _ _ _

/-- C8: every sequence of records returned by `getDetachedInstances` is sorted
newest-first by `startTime`: for every pair of adjacent records in the result,
the earlier record's `startTime` is at least the later record's. -/
theorem list_sorted_newest_first (files : List RegFile) (procs : List ProcInfo) :
    List.Chain' (fun a b : DetachedInstance => b.startTime ≤ a.startTime)
      (getDetachedInstances files procs).instances := by
  have h := List.sorted_insertionSort (fun a b : DetachedInstance => b.startTime ≤ a.startTime)
    (reconcileLoop procs files).instances
  exact h.chain'

/-- C2: for every registry record whose pid belongs to a live process whose
current command line differs from the record's stored `cmd`, a
`getDetachedInstances` pass omits that record from its result, deletes that
record's registry file, and never sends any signal to the live (unrelated)
process at that pid.  `WellFormedRegistry` is the directory invariant of
spec §3 (unique filenames; a record is stored under its own pid). -/
theorem stale_pid_reuse_evicted (files : List RegFile) (procs : List ProcInfo)
    (p : Nat) (inst : DetachedInstance) (proc : ProcInfo)
    (hwf : WellFormedRegistry files)
    (hf : (p, FileContent.valid inst) ∈ files)
    (hp : procs.find? (fun pr => pr.pid == p) = some proc)
    (hcmd : proc.cmd ≠ inst.cmd) :
    inst ∉ (getDetachedInstances files procs).instances ∧
      (∀ f ∈ (getDetachedInstances files procs).registry, f.fst ≠ p) ∧
      p ∉ (getDetachedInstances files procs).signaled := by
  obtain ⟨hnodup, hpid⟩ := hwf
  refine ⟨?_, ?_, ?_⟩
  · intro hmem
    have hmem' : inst ∈ (reconcileLoop procs files).instances :=
      (instances_getDetached _ _ _).mp hmem
    obtain ⟨q, hq, proc', hfind, hcmd'⟩ := mem_instances_reconcileLoop _ _ _ hmem'
    have hq_pid : inst.pid = q := by
      have := hpid _ hq
      simpa [pidMatchesFilename] using this
    have hp_pid : inst.pid = p := by
      have := hpid _ hf
      simpa [pidMatchesFilename] using this
    have hqp : q = p := hq_pid ▸ hp_pid
    subst hqp
    rw [hfind] at hp
    have : proc' = proc := by injection hp
    subst this
    exact hcmd hcmd'
  · intro f hfmem hfp
    have hmem := (registry_getDetached _ _ _).mp hfmem
    have hrem := mismatch_removed_reconcileLoop procs files p inst proc hf hp hcmd
    exact hmem.2 (hfp ▸ hrem)
  · intro hsig
    have hsig' : p ∈ (reconcileLoop procs files).signaled := by
      simpa [getDetachedInstances] using hsig
    have hcor : (p, FileContent.corrupt) ∈ files :=
      mem_signaled_reconcileLoop _ _ _ hsig'
    have heq := List.inj_on_of_nodup_map hnodup hf hcor rfl
    simp at heq

/-- C7: for every registry file whose stored bytes cannot be parsed while a
live process holds its pid, a `getDetachedInstances` pass logs a corruption
warning, sends a termination signal to the process at that pid, and evicts
the file.  The pass is a total function: the condition is handled locally
and never surfaces as a hard failure of the listing itself. -/
theorem corrupt_record_handled (files : List RegFile) (procs : List ProcInfo)
    (p : Nat) (proc : ProcInfo)
    (hf : (p, FileContent.corrupt) ∈ files)
    (hp : procs.find? (fun pr => pr.pid == p) = some proc) :
    p ∈ (getDetachedInstances files procs).warned ∧
      p ∈ (getDetachedInstances files procs).signaled ∧
      (∀ f ∈ (getDetachedInstances files procs).registry, f.fst ≠ p) := by
  obtain ⟨h1, h2, h3⟩ := corrupt_live_reconcileLoop procs files p proc hf hp
  refine ⟨by simpa [getDetachedInstances] using h2, by simpa [getDetachedInstances] using h1, ?_⟩
  intro f hfmem hfp
  have hmem := (registry_getDetached _ _ _).mp hfmem
  exact hmem.2 (hfp ▸ h3)

/-- Helper: whenever the lookup finds a record, `stopDetachedInstance`
removes the file named by that record's pid (the `finally` branch), whatever
the process table looks like at signalling time. -/
theorem stop_removes_file (name : String) (files : List RegFile)
    (procsAtList procsAtKill : List ProcInfo) (inst : DetachedInstance)
    (h : findDetachedInstanceByName name files procsAtList = some inst) :
    ∀ f ∈ (stopDetachedInstance name files procsAtList procsAtKill).registry,
      f.fst ≠ inst.pid := by
  intro f hf
  simp only [stopDetachedInstance, h] at hf
  split at hf
  all_goals
    simp only at hf
    rw [removeFile_snd] at hf
    have := (List.mem_filter.mp hf).2
    simpa [bne_iff_ne] using this

/-- C1 (amended): the claim that `stop` reports `found = true` even when
signal delivery fails is false on the code (see the counterexample): the
`catch` branch returns `false`.  Amended property: when a matching record is
found but no process with its pid exists at signalling time, `stop` returns
`found = false`, although the registry entry is still cleaned up. -/
theorem stop_signal_failure_reports_not_found (name : String) (files : List RegFile)
    (procsAtList procsAtKill : List ProcInfo) (inst : DetachedInstance)
    (h : findDetachedInstanceByName name files procsAtList = some inst)
    (hgone : ∀ pr ∈ procsAtKill, pr.pid ≠ inst.pid) :
    (stopDetachedInstance name files procsAtList procsAtKill).found = false ∧
      ∀ f ∈ (stopDetachedInstance name files procsAtList procsAtKill).registry,
        f.fst ≠ inst.pid := by
  have hdel : procsAtKill.any (fun pr => pr.pid == inst.pid) = false := by
    simp only [List.any_eq_false, beq_iff_eq]
    exact hgone
  constructor
  · simp [stopDetachedInstance, h, hdel]
  · exact stop_removes_file name files procsAtList procsAtKill inst h

/-- C5 (amended): the claim that `stop` on an unknown name performs no
filesystem mutation is false on the code (see the counterexample): the
embedded discovery pass evicts stale files.  Amended property: `stop` on a
name carried by no listed record returns not-found and performs no mutation
beyond what a plain `getDetachedInstances` pass performs: the resulting
registry and the signals sent are exactly those of the listing pass. -/
theorem stop_not_found_no_extra_mutation (name : String) (files : List RegFile)
    (procsAtList procsAtKill : List ProcInfo)
    (h : ∀ inst ∈ (getDetachedInstances files procsAtList).instances,
      inst.instanceName ≠ name) :
    (stopDetachedInstance name files procsAtList procsAtKill).found = false ∧
      (stopDetachedInstance name files procsAtList procsAtKill).registry
        = (getDetachedInstances files procsAtList).registry ∧
      (stopDetachedInstance name files procsAtList procsAtKill).signaled
        = (getDetachedInstances files procsAtList).signaled := by
  have hnone : findDetachedInstanceByName name files procsAtList = none := by
    simp only [findDetachedInstanceByName, List.find?_eq_none, beq_iff_eq]
    exact h
  simp [stopDetachedInstance, hnone]

/-- C3: the Instance Record is persisted to the registry only after the
readiness handshake succeeds; if the spawn fails (launch-time error event or
premature exit before readiness), `startDetachedInstance` fails and no
registry file is created for that child. -/
theorem record_persisted_only_after_ready (childPid : Nat) (childCmd : String)
    (instanceName : String) (host : String) (port : Nat) (flavor : String)
    (version : String) (now : Int) (files : List RegFile) (outcome : SpawnOutcome) :
    (outcome ≠ SpawnOutcome.ready →
      (startDetachedInstance childPid childCmd instanceName host port flavor
        version now files outcome).result = none ∧
      (startDetachedInstance childPid childCmd instanceName host port flavor
        version now files outcome).registry = files) ∧
    (outcome = SpawnOutcome.ready →
      ∃ inst, (startDetachedInstance childPid childCmd instanceName host port flavor
          version now files outcome).result = some inst ∧
        (startDetachedInstance childPid childCmd instanceName host port flavor
          version now files outcome).registry = writeInstanceFile inst files) := by
  cases outcome with
  | ready =>
    refine ⟨fun h => absurd rfl h, fun _ => ⟨_, rfl, rfl⟩⟩
  | errorEvent msg => exact ⟨fun _ => ⟨rfl, rfl⟩, fun h => by simp at h⟩
  | exited code => exact ⟨fun _ => ⟨rfl, rfl⟩, fun h => by simp at h⟩

theorem record_persisted_only_after_ready_witness :
    (startDetachedInstance 7 "node ganache" "nimble_okapi" "127.0.0.1" 8545
      "ethereum" "7.9.0" 0 [] (SpawnOutcome.exited 0)).result = none ∧
    (startDetachedInstance 7 "node ganache" "nimble_okapi" "127.0.0.1" 8545
      "ethereum" "7.9.0" 0 [] (SpawnOutcome.exited 0)).registry = [] :=
  (record_persisted_only_after_ready 7 "node ganache" "nimble_okapi" "127.0.0.1"
    8545 "ethereum" "7.9.0" 0 [] (SpawnOutcome.exited 0)).1 (by simp)

/-- C10: for every set of names already in use that does not exhaust the
generator's namespace (some candidate misses the set), the name-generation
loop used by the Spawner returns a name that is not a member of that set. -/
theorem name_generator_avoids_used (gen : Nat → String) (used : List String)
    (h : ∃ i, gen i ∉ used) :
    generateUniqueName gen used h ∉ used :=
  Nat.find_spec h

theorem name_generator_avoids_used_witness :
    generateUniqueName (fun i => "name" ++ toString i)
      ["name1", "name2"] ⟨0, by decide⟩ ∉ ["name1", "name2"] :=
  name_generator_avoids_used _ _ _

/-- C4: flattening the configuration object with `flavor: \"x\"` and a nested
object `a` holding `b: 1` produces exactly the token sequence
`[\"x\", \"--a.b=1\"]`: the flavor value is unshifted to the front as a bare
positional token, nested keys are joined with dots, and `action` keys are
dropped. -/
theorem flatten_example_flavor_first :
    createFlatChildArgs
      [("flavor", ConfigValue.str "x"),
       ("a", ConfigValue.obj [("b", ConfigValue.num 1)])]
      = ["x", "--a.b=1"] := by
  simp only [createFlatChildArgs, flattenList, nsPrefix, renderScalar]
  rfl

/-- C1 counterexample: a record for name `determined_gecko` is found by
discovery (the lookup returns it), yet because no process with pid 7 exists
at signalling time, `stopDetachedInstance` returns `found = false` — the
claim says it should report `found = true`. -/
theorem stop_found_true_on_signal_failure_cex :
    findDetachedInstanceByName "determined_gecko"
      [(7, FileContent.valid ⟨"determined_gecko", 7, 0, "127.0.0.1", 8545, "ethereum", "node ganache", "7.9.0"⟩)]
      [⟨7, "node ganache"⟩]
      = some ⟨"determined_gecko", 7, 0, "127.0.0.1", 8545, "ethereum", "node ganache", "7.9.0"⟩ ∧
    (stopDetachedInstance "determined_gecko"
      [(7, FileContent.valid ⟨"determined_gecko", 7, 0, "127.0.0.1", 8545, "ethereum", "node ganache", "7.9.0"⟩)]
      [⟨7, "node ganache"⟩] []).found = false := by
  decide

/-- C5 counterexample: the name `absent_name` is carried by no record
returned by the listing (which is empty), `stop` returns not-found, and yet
the call deletes a registry file: the registry shrinks from one file to
none, contradicting \"performs no filesystem mutation\". -/
theorem stop_not_found_mutates_cex :
    (getDetachedInstances
      [(5, FileContent.valid ⟨"brave_gnu", 5, 0, "127.0.0.1", 8545, "ethereum", "node ganache", "7.9.0"⟩)]
      []).instances = [] ∧
    (stopDetachedInstance "absent_name"
      [(5, FileContent.valid ⟨"brave_gnu", 5, 0, "127.0.0.1", 8545, "ethereum", "node ganache", "7.9.0"⟩)]
      [] []).found = false ∧
    (stopDetachedInstance "absent_name"
      [(5, FileContent.valid ⟨"brave_gnu", 5, 0, "127.0.0.1", 8545, "ethereum", "node ganache", "7.9.0"⟩)]
      [] []).registry = [] := by
  decide

theorem stale_pid_reuse_evicted_witness :
    (⟨"busy_bee", 5, 0, "127.0.0.1", 8545, "ethereum", "node ganache", "7.9.0"⟩ : DetachedInstance)
        ∉ (getDetachedInstances
          [(5, FileContent.valid ⟨"busy_bee", 5, 0, "127.0.0.1", 8545, "ethereum", "node ganache", "7.9.0"⟩)]
          [⟨5, "unrelated app"⟩]).instances ∧
      (∀ f ∈ (getDetachedInstances
          [(5, FileContent.valid ⟨"busy_bee", 5, 0, "127.0.0.1", 8545, "ethereum", "node ganache", "7.9.0"⟩)]
          [⟨5, "unrelated app"⟩]).registry, f.fst ≠ 5) ∧
      5 ∉ (getDetachedInstances
          [(5, FileContent.valid ⟨"busy_bee", 5, 0, "127.0.0.1", 8545, "ethereum", "node ganache", "7.9.0"⟩)]
          [⟨5, "unrelated app"⟩]).signaled :=
  stale_pid_reuse_evicted _ _ 5
    ⟨"busy_bee", 5, 0, "127.0.0.1", 8545, "ethereum", "node ganache", "7.9.0"⟩
    ⟨5, "unrelated app"⟩ ⟨by decide, by decide⟩ (by decide) (by decide) (by decide)

theorem corrupt_record_handled_witness :
    9 ∈ (getDetachedInstances [(9, FileContent.corrupt)] [⟨9, "some process"⟩]).warned ∧
      9 ∈ (getDetachedInstances [(9, FileContent.corrupt)] [⟨9, "some process"⟩]).signaled ∧
      (∀ f ∈ (getDetachedInstances [(9, FileContent.corrupt)] [⟨9, "some process"⟩]).registry,
        f.fst ≠ 9) :=
  corrupt_record_handled _ _ 9 ⟨9, "some process"⟩ (by decide) (by decide)

theorem stop_signal_failure_reports_not_found_witness :
    (stopDetachedInstance "determined_gecko"
      [(7, FileContent.valid ⟨"determined_gecko", 7, 0, "127.0.0.1", 8545, "ethereum", "node ganache", "7.9.0"⟩)]
      [⟨7, "node ganache"⟩] []).found = false ∧
      ∀ f ∈ (stopDetachedInstance "determined_gecko"
        [(7, FileContent.valid ⟨"determined_gecko", 7, 0, "127.0.0.1", 8545, "ethereum", "node ganache", "7.9.0"⟩)]
        [⟨7, "node ganache"⟩] []).registry, f.fst ≠ 7 :=
  stop_signal_failure_reports_not_found _ _ _ _
    ⟨"determined_gecko", 7, 0, "127.0.0.1", 8545, "ethereum", "node ganache", "7.9.0"⟩
    (by decide) (by decide)

theorem stop_not_found_no_extra_mutation_witness :
    (stopDetachedInstance "absent_name"
      [(6, FileContent.valid ⟨"present_name", 6, 0, "127.0.0.1", 8545, "ethereum", "node ganache", "7.9.0"⟩)]
      [⟨6, "node ganache"⟩] [⟨6, "node ganache"⟩]).found = false ∧
      (stopDetachedInstance "absent_name"
        [(6, FileContent.valid ⟨"present_name", 6, 0, "127.0.0.1", 8545, "ethereum", "node ganache", "7.9.0"⟩)]
        [⟨6, "node ganache"⟩] [⟨6, "node ganache"⟩]).registry
        = (getDetachedInstances
          [(6, FileContent.valid ⟨"present_name", 6, 0, "127.0.0.1", 8545, "ethereum", "node ganache", "7.9.0"⟩)]
          [⟨6, "node ganache"⟩]).registry ∧
      (stopDetachedInstance "absent_name"
        [(6, FileContent.valid ⟨"present_name", 6, 0, "127.0.0.1", 8545, "ethereum", "node ganache", "7.9.0"⟩)]
        [⟨6, "node ganache"⟩] [⟨6, "node ganache"⟩]).signaled
        = (getDetachedInstances
          [(6, FileContent.valid ⟨"present_name", 6, 0, "127.0.0.1", 8545, "ethereum", "node ganache", "7.9.0"⟩)]
          [⟨6, "node ganache"⟩]).signaled :=
  stop_not_found_no_extra_mutation _ _ _ _ (by decide)

/-- C6: for every instance name for which a matching record is found,
`stopDetachedInstance` removes that instance's registry file regardless of
the outcome of signal delivery: no file keyed by the record's pid survives,
both when the termination signal is delivered and when delivery fails
because the target process is already gone. -/
theorem stop_removes_file_regardless_of_signal (name : String) (files : List RegFile)
    (procsAtList procsAtKill : List ProcInfo) (inst : DetachedInstance)
    (h : findDetachedInstanceByName name files procsAtList = some inst) :
    ∀ f ∈ (stopDetachedInstance name files procsAtList procsAtKill).registry,
      f.fst ≠ inst.pid :=
  stop_removes_file name files procsAtList procsAtKill inst h

theorem stop_removes_file_regardless_of_signal_witness :
    (∀ f ∈ (stopDetachedInstance "eager_emu"
        [(8, FileContent.valid ⟨"eager_emu", 8, 0, "127.0.0.1", 8545, "ethereum", "node ganache", "7.9.0"⟩)]
        [⟨8, "node ganache"⟩] [⟨8, "node ganache"⟩]).registry, f.fst ≠ 8) ∧
      (∀ f ∈ (stopDetachedInstance "eager_emu"
        [(8, FileContent.valid ⟨"eager_emu", 8, 0, "127.0.0.1", 8545, "ethereum", "node ganache", "7.9.0"⟩)]
        [⟨8, "node ganache"⟩] []).registry, f.fst ≠ 8) :=
  ⟨stop_removes_file_regardless_of_signal _ _ _ _
      ⟨"eager_emu", 8, 0, "127.0.0.1", 8545, "ethereum", "node ganache", "7.9.0"⟩ (by decide),
    stop_removes_file_regardless_of_signal _ _ _ _
      ⟨"eager_emu", 8, 0, "127.0.0.1", 8545, "ethereum", "node ganache", "7.9.0"⟩ (by decide)⟩

theorem flattenList_nil (ns : Option String) (acc : List String) :
    flattenList ns acc [] = acc := by
  rw [flattenList.eq_def]

theorem flattenList_flavor (ns : Option String) (acc : List String)
    (v : ConfigValue) (rest : List (String × ConfigValue)) :
    flattenList ns acc (("flavor", v) :: rest)
      = flattenList ns (renderScalar v :: acc) rest := by
  rw [flattenList.eq_def]
  simp

theorem flattenList_action (ns : Option String) (acc : List String)
    (v : ConfigValue) (rest : List (String × ConfigValue)) :
    flattenList ns acc (("action", v) :: rest) = flattenList ns acc rest := by
  rw [flattenList.eq_def]
  simp

theorem flattenList_obj (ns : Option String) (acc : List String) (k : String)
    (fields rest : List (String × ConfigValue))
    (hk : k ≠ "flavor") (ha : k ≠ "action") :
    flattenList ns acc ((k, ConfigValue.obj fields) :: rest)
      = flattenList ns (flattenList (some (nsPrefix ns ++ k)) acc fields) rest := by
  rw [flattenList.eq_def]
  simp [hk, ha]

theorem flattenList_scalar (ns : Option String) (acc : List String) (k : String)
    (v : ConfigValue) (rest : List (String × ConfigValue))
    (hk : k ≠ "flavor") (ha : k ≠ "action") (hv : v.isScalar = true) :
    flattenList ns acc ((k, v) :: rest)
      = flattenList ns (acc ++ ["--" ++ nsPrefix ns ++ k ++ "=" ++ renderScalar v]) rest := by
  rw [flattenList.eq_def]
  cases v with
  | obj fields => simp [ConfigValue.isScalar] at hv
  | str s => simp [hk, ha]
  | num n => simp [hk, ha]
  | bool b => simp [hk, ha]

theorem mem_flattenList_acc (ns : Option String) (acc : List String)
    (l : List (String × ConfigValue)) (x : String) (hx : x ∈ acc) :
    x ∈ flattenList ns acc l := by
  induction ns, acc, l using flattenList.induct generalizing x with
  | case1 ns acc => simpa [flattenList_nil] using hx
  | case2 ns acc v rest ih =>
    rw [flattenList_flavor]
    exact ih _ (List.mem_cons_of_mem _ hx)
  | case3 ns acc v rest hne ih =>
    rw [flattenList_action]
    exact ih _ hx
  | case4 ns acc k rest hk ha fields ihf ih =>
    rw [flattenList_obj ns acc k fields rest hk ha]
    exact ih _ (ihf _ hx)
  | case5 ns acc k v rest hk ha hnotobj ih =>
    have hv : v.isScalar = true := by
      cases v with
      | obj fields => exact absurd rfl (hnotobj fields)
      | str s => rfl
      | num n => rfl
      | bool b => rfl
    rw [flattenList_scalar ns acc k v rest hk ha hv]
    exact ih _ (List.mem_append_left _ hx)

/-- The dotted flag name for a scalar key `k` nested under the namespace
path `path` of enclosing objects. -/
def dottedName : List String → String → String
  | [], k => k
  | p :: ps, k => p ++ "." ++ dottedName ps k

/-- The configuration stores scalar `v` at key `k` nested under the object
path `path`, with no component (nor `k`) being a special
`"flavor"`/`"action"` key. -/
def HasScalarAt : List (String × ConfigValue) → List String → String → ConfigValue → Prop
  | l, [], k, v => (k, v) ∈ l ∧ v.isScalar = true ∧ k ≠ "flavor" ∧ k ≠ "action"
  | l, p :: ps, k, v =>
    ∃ fields, (p, ConfigValue.obj fields) ∈ l ∧ p ≠ "flavor" ∧ p ≠ "action" ∧
      HasScalarAt fields ps k v

theorem mem_flattenList_cons_of_forall_acc (ns : Option String) (acc : List String)
    (f : String × ConfigValue) (rest : List (String × ConfigValue)) (x : String)
    (hx : ∀ acc : List String, x ∈ flattenList ns acc rest) :
    x ∈ flattenList ns acc (f :: rest) := by
  obtain ⟨k', v'⟩ := f
  by_cases hkf : k' = "flavor"
  · subst hkf
    rw [flattenList_flavor]
    exact hx _
  by_cases hka : k' = "action"
  · subst hka
    rw [flattenList_action]
    exact hx _
  cases v' with
  | obj fields =>
    rw [flattenList_obj ns acc k' fields rest hkf hka]
    exact hx _
  | str s =>
    rw [flattenList_scalar ns acc k' (ConfigValue.str s) rest hkf hka rfl]
    exact hx _
  | num n =>
    rw [flattenList_scalar ns acc k' (ConfigValue.num n) rest hkf hka rfl]
    exact hx _
  | bool b =>
    rw [flattenList_scalar ns acc k' (ConfigValue.bool b) rest hkf hka rfl]
    exact hx _

theorem token_mem_flattenList (path : List String) :
    ∀ (l : List (String × ConfigValue)) (ns : Option String) (acc : List String)
      (k : String) (v : ConfigValue), HasScalarAt l path k v →
      ("--" ++ nsPrefix ns ++ dottedName path k ++ "=" ++ renderScalar v)
        ∈ flattenList ns acc l := by
  induction path with
  | nil =>
    intro l
    induction l with
    | nil =>
      intro ns acc k v h
      exact absurd h.1 (List.not_mem_nil _)
    | cons f rest ih =>
      intro ns acc k v h
      obtain ⟨hmem, hs, hkf, hka⟩ := h
      rcases List.mem_cons.mp hmem with heq | hmem'
      · subst heq
        rw [flattenList_scalar ns acc k v rest hkf hka hs]
        refine mem_flattenList_acc _ _ _ _ ?_
        simp [dottedName]
      · exact mem_flattenList_cons_of_forall_acc ns acc f rest _
          (fun acc2 => ih ns acc2 k v ⟨hmem', hs, hkf, hka⟩)
  | cons p ps ihp =>
    intro l
    induction l with
    | nil =>
      intro ns acc k v h
      obtain ⟨fields, hmem, _, _, _⟩ := h
      exact absurd hmem (List.not_mem_nil _)
    | cons f rest ih =>
      intro ns acc k v h
      obtain ⟨fields, hmem, hpf, hpa, hrec⟩ := h
      rcases List.mem_cons.mp hmem with heq | hmem'
      · subst heq
        rw [flattenList_obj ns acc p fields rest hpf hpa]
        refine mem_flattenList_acc _ _ _ _ ?_
        have htok := ihp fields (some (nsPrefix ns ++ p)) acc k v hrec
        have hstr : "--" ++ nsPrefix (some (nsPrefix ns ++ p)) ++ dottedName ps k
            ++ "=" ++ renderScalar v
            = "--" ++ nsPrefix ns ++ dottedName (p :: ps) k ++ "=" ++ renderScalar v := by
          simp [nsPrefix, dottedName, String.append_assoc]
        rwa [hstr] at htok
      · exact mem_flattenList_cons_of_forall_acc ns acc f rest _
          (fun acc2 => ih ns acc2 k v ⟨fields, hmem', hpf, hpa, hrec⟩)

/-- C9: every key bound to a scalar value (other than the special `flavor`
and `action` keys) nested under the object path `path` contributes the token
`--{prefix}{k}={value}` to the flattened output, where the prefix is the
dotted namespace path of its enclosing objects — for every scalar value,
whatever its type. -/
theorem scalar_key_emits_dotted_flag (l : List (String × ConfigValue))
    (path : List String) (k : String) (v : ConfigValue)
    (h : HasScalarAt l path k v) :
    ("--" ++ dottedName path k ++ "=" ++ renderScalar v) ∈ createFlatChildArgs l := by
  have htok := token_mem_flattenList path l none [] k v h
  simpa [createFlatChildArgs, nsPrefix] using htok

theorem scalar_key_emits_dotted_flag_witness :
    "--server.port=8545" ∈ createFlatChildArgs
      [("flavor", ConfigValue.str "ethereum"),
       ("server", ConfigValue.obj [("port", ConfigValue.num 8545)])] := by
  have h := scalar_key_emits_dotted_flag
    [("flavor", ConfigValue.str "ethereum"),
     ("server", ConfigValue.obj [("port", ConfigValue.num 8545)])]
    ["server"] "port" (ConfigValue.num 8545)
    ⟨[("port", ConfigValue.num 8545)], by simp, by decide, by decide,
      by exact ⟨by simp, rfl, by decide, by decide⟩⟩
  exact h

end GanacheDetach
